import Mathlib

/-
Verification development for the LHC telemetry sampling pipeline.

Shallow embedding of the four source variants of the repository:
  - src/scripts/pull.mjs          (pull_telemetry: per-URL fetch, classifier with state)
  - src/scripts/pull-vistars.mjs  (two scripts: vistars pull, and the 1-hour trim job)
  - src/unnamed/part_000          (fetch-lhc.mjs: 10-minute buckets, 50-day retention)
  - src/unnamed/part_001          (tolerance-mode dedup, 48-hour retention)

Modelling conventions:
  - JSON numbers are decimal literals, hence exact rationals; all numeric fields that
    travel through JSON or through the finiteness-filtering coercions (num / parseNumber,
    which map NaN and Infinity to null) are modelled as Option Rat, none standing for
    JS null.
  - Where the behaviour on the IEEE special values matters (the beta derivation is
    specified as total over all JS numbers, finite or not), JS numbers are
    modelled by the type JsRat with explicit nan / inf / ninf constructors and IEEE-style
    operation tables.  Signed zero is not distinguished from zero; no claim depends on it.
  - Math.sqrt is modelled by Real.sqrt, with NaN/Infinity results tracked by JsReal.
-/

/-! ### JS numbers with IEEE special values -/

/-- Proton rest mass in GeV, the constant m0 of all three betaFromGeV variants. -/
def m0 : ℚ := 0.9382720813

/-- A JS number: NaN, +Infinity, -Infinity, or a finite value (an exact rational;
JSON can only denote rationals and the claims do not depend on rounding). -/
inductive JsRat where
  | nan
  | inf
  | ninf
  | fin (q : ℚ)
deriving DecidableEq

/-- JS truthiness of a number: NaN and 0 are falsy, everything else truthy. -/
def jsTruthy : JsRat → Bool
  | .nan => false
  | .fin q => decide (q ≠ 0)
  | _ => true

/-- JS strict greater-than on numbers; any comparison with NaN is false. -/
def jsGt : JsRat → JsRat → Bool
  | .nan, _ => false
  | _, .nan => false
  | .inf, .inf => false
  | .inf, _ => true
  | .ninf, _ => false
  | _, .inf => false
  | _, .ninf => true
  | .fin a, .fin b => decide (b < a)

/-- JS less-or-equal on numbers; any comparison with NaN is false. -/
def jsLe : JsRat → JsRat → Bool
  | .nan, _ => false
  | _, .nan => false
  | .ninf, _ => true
  | _, .ninf => false
  | _, .inf => true
  | .inf, _ => false
  | .fin a, .fin b => decide (a ≤ b)

/-- JS multiplication with IEEE special-value propagation. -/
def jsMul : JsRat → JsRat → JsRat
  | .nan, _ => .nan
  | _, .nan => .nan
  | .inf, .inf => .inf
  | .inf, .ninf => .ninf
  | .ninf, .inf => .ninf
  | .ninf, .ninf => .inf
  | .inf, .fin b => if b = 0 then .nan else if b < 0 then .ninf else .inf
  | .fin a, .inf => if a = 0 then .nan else if a < 0 then .ninf else .inf
  | .ninf, .fin b => if b = 0 then .nan else if b < 0 then .inf else .ninf
  | .fin a, .ninf => if a = 0 then .nan else if a < 0 then .inf else .ninf
  | .fin a, .fin b => .fin (a * b)

/-- JS division with IEEE special-value propagation (signed zero not modelled:
a finite value divided by an infinity is 0, division by zero follows the sign
of the numerator). -/
def jsDiv : JsRat → JsRat → JsRat
  | .nan, _ => .nan
  | _, .nan => .nan
  | .inf, .inf => .nan
  | .inf, .ninf => .nan
  | .ninf, .inf => .nan
  | .ninf, .ninf => .nan
  | .inf, .fin b => if b < 0 then .ninf else .inf
  | .ninf, .fin b => if b < 0 then .inf else .ninf
  | .fin _, .inf => .fin 0
  | .fin _, .ninf => .fin 0
  | .fin a, .fin b =>
      if b = 0 then (if a = 0 then .nan else if a < 0 then .ninf else .inf)
      else .fin (a / b)

/-- JS subtraction with IEEE special-value propagation. -/
def jsSub : JsRat → JsRat → JsRat
  | .nan, _ => .nan
  | _, .nan => .nan
  | .inf, .inf => .nan
  | .inf, _ => .inf
  | .ninf, .ninf => .nan
  | .ninf, _ => .ninf
  | .fin _, .inf => .ninf
  | .fin _, .ninf => .inf
  | .fin a, .fin b => .fin (a - b)

/-- Math.min: NaN-propagating minimum. -/
def jsMin : JsRat → JsRat → JsRat
  | .nan, _ => .nan
  | _, .nan => .nan
  | .ninf, _ => .ninf
  | _, .ninf => .ninf
  | .inf, b => b
  | a, .inf => a
  | .fin a, .fin b => .fin (min a b)

/-- Math.max: NaN-propagating maximum. -/
def jsMax : JsRat → JsRat → JsRat
  | .nan, _ => .nan
  | _, .nan => .nan
  | .inf, _ => .inf
  | _, .inf => .inf
  | .ninf, b => b
  | a, .ninf => a
  | .fin a, .fin b => .fin (max a b)

/-- The result type of Math.sqrt: NaN, +Infinity, or a finite real. -/
inductive JsReal where
  | rnan
  | rinf
  | rfin (r : ℝ)

/-- Math.sqrt: NaN on NaN or any negative argument (including -Infinity),
+Infinity on +Infinity, Real.sqrt on non-negative finite arguments. -/
noncomputable def jsSqrt : JsRat → JsReal
  | .nan => .rnan
  | .ninf => .rnan
  | .inf => .rinf
  | .fin q => if q < 0 then .rnan else .rfin (Real.sqrt (q : ℝ))

/-- betaFromGeV, src/unnamed/part_000 lines 48-54 (identically in
src/scripts/pull-vistars.mjs lines 54-60 and 173-179):
gamma is E/m0 when E is truthy and positive, else 1; if gamma is at most 1 the
result is the number 0; otherwise the result is
sqrt(max(0, min(1, 1 - 1/(gamma*gamma)))). -/
noncomputable def betaFromGeV (E : JsRat) : JsReal :=
  let gamma := if jsTruthy E && jsGt E (.fin 0) then jsDiv E (.fin m0) else .fin 1
  if jsLe gamma (.fin 1) then .rfin 0
  else jsSqrt (jsMax (.fin 0) (jsMin (.fin 1)
    (jsSub (.fin 1) (jsDiv (.fin 1) (jsMul gamma gamma)))))

/-- betaFromProtonGeV, src/scripts/pull.mjs lines 63-69.  Its only caller passes
a value produced by parseNumber, which filters NaN and the infinities, so the
domain is the finite JS numbers, modelled as Rat. -/
noncomputable def betaFromProtonGeV (E : ℚ) : ℝ :=
  if ¬ (0 < E) then 0
  else
    let gamma : ℚ := E / m0
    let b2 : ℚ := 1 - 1 / (gamma * gamma)
    Real.sqrt ((max 0 (min 1 b2) : ℚ) : ℝ)

/-! ### Species classifier of pull.mjs -/

/-- JS String.prototype.toLowerCase on the ASCII strings of this pipeline,
modelled character by character. -/
def jsLower (s : String) : String := String.mk (s.data.map Char.toLower)

/-- JS String.prototype.trim: whitespace removed from both ends. -/
def jsTrim (s : String) : String :=
  String.mk (((s.data.dropWhile Char.isWhitespace).reverse.dropWhile
    Char.isWhitespace).reverse)

/-- The FORCE_SPECIES environment value as read at src/scripts/pull.mjs line 11:
trimmed, then lowercased. -/
def normForce (raw : String) : String := jsLower (jsTrim raw)

/-- speciesFromSample, src/scripts/pull.mjs lines 97-120.  The sample argument is
split into its three fields the function reads (energy, ib1, ib2); forceSpec is
the module-level FORCE_SPEC value (already normalized by normForce).
The intensity I is Math.max(ib1 || 0, ib2 || 0): a null intensity contributes 0. -/
def speciesFromSample (forceSpec : String) (energy ib1 ib2 : Option ℚ)
    (lastKnown : String) : String :=
  if forceSpec = "proton" ∨ forceSpec = "protons" then "protons"
  else if forceSpec = "ion" ∨ forceSpec = "ions" then "ions"
  else
    let I : ℚ := max (ib1.getD 0) (ib2.getD 0)
    if energy.any (fun e => decide (4000 ≤ e)) then "protons"
    else if energy.any (fun e => decide (e ≤ 3500)) && decide (0 < I) &&
        decide (I < 1000000000000) then "ions"
    else if decide ((10000000000000 : ℚ) < I) then "protons"
    else if decide (0 < I) && decide (I < 500000000000) then "ions"
    else if lastKnown ≠ "" ∧ lastKnown ≠ "unknown" then lastKnown
    else "protons"

/-! ### Textual species heuristics (part_001 and pull-vistars.mjs) -/

/-- Whether the pattern list occurs at the head of the character list. -/
def leadsWith : List Char → List Char → Bool
  | [], _ => true
  | _ :: _, [] => false
  | p :: ps, c :: cs => p == c && leadsWith ps cs

/-- Whether the pattern occurs anywhere in the character list. -/
def subOccurs (pat : List Char) : List Char → Bool
  | [] => leadsWith pat []
  | c :: cs => leadsWith pat (c :: cs) || subOccurs pat cs

/-- Plain substring containment, the meaning of an alternation-of-literals regex
test such as the ion/proton signature regexes. -/
def containsSub (s pat : String) : Bool := subOccurs pat.data s.data

/-- Whether any of the literal patterns occurs in the string. -/
def containsAnySub (s : String) (pats : List String) : Bool :=
  pats.any (fun p => containsSub s p)

/-- guessSpeciesFromPayload, src/unnamed/part_001 lines 54-60.  The argument is
the JSON.stringify rendering of the fetched payload objects; the function
lowercases it and tests the two literal-alternation regexes in order. -/
def guessSpeciesFromPayload (payloadStr : String) : Option String :=
  let hay := jsLower payloadStr
  if containsAnySub hay ["ion", "pb", "lead", "a-ion", "heavy"] then some "ions"
  else if containsAnySub hay ["proton", "p-beam", "pbeam"] then some "protons"
  else none

/-- The species resolution of src/unnamed/part_001 line 116:
FORCE_SPECIES || guessSpeciesFromPayload(...) || "unknown".  An empty forced
string is falsy; the guess is "ions"/"protons" or null, never empty. -/
def resolveSpecies1 (forced : String) (guess : Option String) : String :=
  if forced = "" then (match guess with | some s => s | none => "unknown")
  else forced

/-- A JS word character, the \w class of the regex engine (ASCII letters,
digits, underscore; the payloads are ASCII JSON). -/
def wordChar (c : Char) : Bool := c.isAlphanum || c = '_'

/-- An occurrence of "pp" followed by a word boundary (end of string or a
non-word character), the meaning of the pattern pp with a trailing boundary
anchor inside the proton regex of pull-vistars.mjs line 89. -/
def ppWordEnd : List Char → Bool
  | a :: b :: rest =>
      (a == 'p' && b == 'p' &&
        (match rest with | [] => true | c :: _ => !wordChar c))
      || ppWordEnd (b :: rest)
  | _ => false

/-- The ion test of src/scripts/pull-vistars.mjs line 88: a case-insensitive
search for ion, pb or lead over the JSON.stringify rendering of the payload. -/
def vistarsIsIon (payloadStr : String) : Bool :=
  let h := jsLower payloadStr
  containsSub h "ion" || containsSub h "pb" || containsSub h "lead"

/-- The proton test of src/scripts/pull-vistars.mjs line 89: a case-insensitive
search for proton, or pp at a word boundary. -/
def vistarsIsProt (payloadStr : String) : Bool :=
  let h := jsLower payloadStr
  containsSub h "proton" || ppWordEnd h.data

/-- The species heuristic of src/scripts/pull-vistars.mjs lines 87-92:
ion signature without proton signature gives ions; proton signature without ion
signature gives protons; otherwise protons exactly when energy is truthy and
above 200 and at least one intensity is truthy, else unknown. -/
def jsTruthyOpt (x : Option ℚ) : Bool :=
  match x with
  | some v => decide (v ≠ 0)
  | none => false

/-- See jsTruthyOpt; this is the main classification of pull-vistars.mjs. -/
def vistarsSpecies (payloadStr : String) (energy ib1 ib2 : Option ℚ) : String :=
  if vistarsIsIon payloadStr && !vistarsIsProt payloadStr then "ions"
  else if vistarsIsProt payloadStr && !vistarsIsIon payloadStr then "protons"
  else if jsTruthyOpt energy && energy.any (fun e => decide (200 < e)) &&
      (jsTruthyOpt ib1 || jsTruthyOpt ib2) then "protons"
  else "unknown"

/-! ### JSON documents and the breadth-first field extractor -/

/-- A JSON value, the untyped payload shape the extractor traverses. -/
inductive Json where
  | jnull
  | jbool (b : Bool)
  | jnum (q : ℚ)
  | jstr (s : String)
  | jarr (elems : List Json)
  | jobj (fields : List (String × Json))

/-- One run of leading decimal digits, returned with the rest of the input. -/
def takeDigits : List Char → List ℕ × List Char
  | c :: rest =>
      if c.isDigit then
        let p := takeDigits rest
        ((c.toNat - 48) :: p.1, p.2)
      else ([], c :: rest)
  | [] => ([], [])

/-- The natural number denoted by a digit list. -/
def natOfDigits (ds : List ℕ) : ℕ := ds.foldl (fun a d => a * 10 + d) 0

/-- The fractional value denoted by a digit list read after a decimal point. -/
def fracOfDigits (ds : List ℕ) : ℚ := (natOfDigits ds : ℚ) / (10 ^ ds.length)

/-- parseFloat: after leading whitespace and an optional sign, the longest
leading run that is a decimal literal (digits, optional fraction, optional
exponent) denotes the result; none when no digits are found (the NaN outcome).  The
literal word Infinity, which parseFloat also accepts, is excluded by the
Number.isFinite check of every caller, so it is folded into the none outcome. -/
def jsParseFloat (s : String) : Option ℚ :=
  let cs := s.data.dropWhile (fun c => c.isWhitespace)
  let signAndRest : ℚ × List Char :=
    match cs with
    | '-' :: r => (-1, r)
    | '+' :: r => (1, r)
    | _ => (1, cs)
  let ipRest := takeDigits signAndRest.2
  let fpRest : List ℕ × List Char :=
    match ipRest.2 with
    | '.' :: r => takeDigits r
    | _ => ([], ipRest.2)
  if ipRest.1.isEmpty && fpRest.1.isEmpty then none
  else
    let base : ℚ := signAndRest.1 * ((natOfDigits ipRest.1 : ℚ) + fracOfDigits fpRest.1)
    let expo : ℤ :=
      match fpRest.2 with
      | c :: r =>
          if c == 'e' || c == 'E' then
            let esRest : ℤ × List Char :=
              match r with
              | '-' :: rr => (-1, rr)
              | '+' :: rr => (1, rr)
              | _ => (1, r)
            let ed := takeDigits esRest.2
            if ed.1.isEmpty then 0 else esRest.1 * (natOfDigits ed.1 : ℤ)
          else 0
      | [] => 0
    some (base * (10 : ℚ) ^ expo)

/-- Replacement of the first comma by a period, the .replace of the numeric
coercions (a string .replace with a string pattern replaces only the first
occurrence in JS). -/
def replaceFirstComma : List Char → List Char
  | [] => []
  | c :: rest => if c == ',' then '.' :: rest else c :: replaceFirstComma rest

/-- The numeric coercion num / parseNumber shared by all variants
(src/unnamed/part_000 lines 23-28, src/scripts/pull.mjs lines 20-26,
src/scripts/pull-vistars.mjs lines 35 and 151-155): null stays null, a finite
number passes through (our rationals are all finite; NaN and the infinities
never occur as JSON literals), anything else is stringified and parsed with the
first comma read as a decimal point.  String(bool) and String(object) parse to
NaN, hence none.  An array would stringify to its comma-joined elements; that
case is not reached by any claim and is modelled as the NaN outcome. -/
def jsToNumber : Json → Option ℚ
  | .jnull => none
  | .jnum q => some q
  | .jstr s => jsParseFloat (String.mk (replaceFirstComma s.data))
  | .jbool _ => none
  | .jobj _ => none
  | .jarr _ => none

/-- The v?.value ?? v step of the extractor: for an object, its value property
when present and non-null, else the value itself (?? falls back on null too). -/
def valueOrSelf (v : Json) : Json :=
  match v with
  | .jobj fields =>
      match fields.lookup "value" with
      | some .jnull => v
      | some w => w
      | none => v
  | _ => v

/-- Object.entries as the traversal edges: an object yields its fields in
order, an array yields its elements keyed by their decimal indices, every
other value has no entries. -/
def entriesOf : Json → List (String × Json)
  | .jobj fields => fields
  | .jarr elems => elems.enum.map (fun p => (toString p.1, p.2))
  | _ => []

/-- The push condition v && typeof v === 'object': objects and arrays are
enqueued (JS null has typeof object but is falsy). -/
def isChildObj : Json → Bool
  | .jobj _ => true
  | .jarr _ => true
  | _ => false

/-- One entry of the extractor loop: when the key matches, a numeric value is
returned as-is, otherwise num(v?.value ?? v) is returned when it is non-null;
a match that does not coerce yields nothing and the scan continues. -/
def entryHit (rx : String → Bool) (k : String) (v : Json) : Option ℚ :=
  if rx k then
    match v with
    | .jnum q => some q
    | _ => jsToNumber (valueOrSelf v)
  else none

/-- The entry scan of one dequeued object: the first entry that hits wins. -/
def scanEntries (rx : String → Bool) : List (String × Json) → Option ℚ
  | [] => none
  | (k, v) :: rest =>
      match entryHit rx k v with
      | some n => some n
      | none => scanEntries rx rest

/-- The children enqueued while scanning an object: its object-like values. -/
def childrenOf (entries : List (String × Json)) : List Json :=
  entries.filterMap (fun kv => if isChildObj kv.2 then some kv.2 else none)

lemma sizeOf_childrenOf_le (es : List (String × Json)) :
    sizeOf (childrenOf es) ≤ sizeOf es := by
  induction es with
  | nil => simp [childrenOf]
  | cons kv rest ih =>
      obtain ⟨k, v⟩ := kv
      by_cases h : isChildObj v = true
      · simp only [childrenOf, List.filterMap_cons, h, if_pos] at *
        simp only [List.cons.sizeOf_spec, Prod.mk.sizeOf_spec]
        omega
      · simp only [childrenOf, List.filterMap_cons] at *
        rw [if_neg h]
        simp only [List.cons.sizeOf_spec, Prod.mk.sizeOf_spec]
        omega

lemma childrenOf_enum_map (f : ℕ → String) (xs : List Json) (n : ℕ) :
    childrenOf ((xs.enumFrom n).map (fun p => (f p.1, p.2)))
      = xs.filter isChildObj := by
  induction xs generalizing n with
  | nil => simp [childrenOf]
  | cons x rest ih =>
      by_cases h : isChildObj x = true
      · simp [childrenOf, List.enumFrom, List.filterMap_cons, h, List.filter_cons] at *
        exact ih (n + 1)
      · simp only [List.enumFrom, List.map_cons, childrenOf, List.filterMap_cons] at *
        rw [if_neg h]
        simp only [List.filter_cons]
        rw [if_neg h]
        exact ih (n + 1)

lemma sizeOf_filter_le (xs : List Json) :
    sizeOf (xs.filter isChildObj) ≤ sizeOf xs := by
  induction xs with
  | nil => simp
  | cons x rest ih =>
      simp only [List.filter_cons]
      by_cases h : isChildObj x = true
      · rw [if_pos h]
        simp only [List.cons.sizeOf_spec]
        omega
      · rw [if_neg h]
        simp only [List.cons.sizeOf_spec]
        omega

lemma sizeOf_childrenOf_entriesOf (o : Json) :
    sizeOf (childrenOf (entriesOf o)) ≤ sizeOf o := by
  cases o with
  | jobj fields =>
      have := sizeOf_childrenOf_le fields
      simp only [entriesOf, Json.jobj.sizeOf_spec]
      omega
  | jarr elems =>
      have h1 : childrenOf (entriesOf (Json.jarr elems)) = elems.filter isChildObj := by
        simpa [entriesOf, List.enum] using childrenOf_enum_map toString elems 0
      rw [h1]
      have := sizeOf_filter_le elems
      simp only [Json.jarr.sizeOf_spec]
      omega
  | jnull => simp [entriesOf, childrenOf]
  | jbool b => simp [entriesOf, childrenOf]
  | jnum q => simp [entriesOf, childrenOf]
  | jstr s => simp [entriesOf, childrenOf]

lemma sizeOf_append_list (l1 l2 : List Json) :
    sizeOf (l1 ++ l2) + 1 = sizeOf l1 + sizeOf l2 := by
  induction l1 with
  | nil => simp only [List.nil_append, List.nil.sizeOf_spec]; omega
  | cons a as ih => simp only [List.cons_append, List.cons.sizeOf_spec]; omega

/-- The breadth-first queue loop of pickByRegex (src/unnamed/part_000 lines
30-46, identical in pull.mjs lines 29-45 and pull-vistars.mjs lines 36-53,
156-172): dequeue a value, scan its entries for the first key matching the
pattern whose value coerces to a number, and enqueue the object-like values of
the scanned entries at the back of the queue. -/
def pickBFS (rx : String → Bool) (q : List Json) : Option ℚ :=
  match q with
  | [] => none
  | o :: rest =>
      match scanEntries rx (entriesOf o) with
      | some n => some n
      | none => pickBFS rx (rest ++ childrenOf (entriesOf o))
termination_by sizeOf q
decreasing_by
  have h1 := sizeOf_append_list rest (childrenOf (entriesOf o))
  have h2 := sizeOf_childrenOf_entriesOf o
  simp only [List.cons.sizeOf_spec]
  omega

/-- pickByRegex: the breadth-first search started at the document root.  The
regex test is modelled as an arbitrary predicate on keys, which is exactly how
the loop consumes it. -/
def pickByRegex (j : Json) (rx : String → Bool) : Option ℚ := pickBFS rx [j]

/-- The JSON branch of fetchNum, src/scripts/pull.mjs lines 47-60: the deep
pick when it hits, else parseNumber applied to the whole document. -/
def fetchNumJson (j : Json) (rx : String → Bool) : Option ℚ :=
  match pickByRegex j rx with
  | some n => some n
  | none => jsToNumber j

/-! ### Sample construction (pull.mjs main) -/

/-- The Sample value assembled by src/scripts/pull.mjs lines 143-154: the
bucket time, the four optional signals, the derived speed (null exactly when
energy is null), and the species attached afterwards.  The provenance metadata
carries no data the pipeline reads back and is omitted. -/
structure SampleP where
  t : ℚ
  energy : Option ℚ
  speed : Option ℝ
  ib1 : Option ℚ
  ib2 : Option ℚ
  lumi : Option ℚ
  species : String

/-- The sample construction of src/scripts/pull.mjs main (lines 143-154):
speed is betaFromProtonGeV of the energy when the energy is non-null, else
null; the species is speciesFromSample on the sample fields and the persisted
last-known species, with the FORCE_SPECIES environment value normalized at
module load (line 11). -/
noncomputable def buildSample (rawForce lastKnown : String) (t : ℚ)
    (energyGeV ib1 ib2 lumi : Option ℚ) : SampleP :=
  { t := t
    energy := energyGeV
    speed := energyGeV.map betaFromProtonGeV
    ib1 := ib1
    ib2 := ib2
    lumi := lumi
    species := speciesFromSample (normForce rawForce) energyGeV ib1 ib2 lastKnown }

/-! ### History store, exact-bucket mode (part_000) -/

/-- A record parsed from one line of the history file of part_000
(rec = t, energy, speed, ib1, ib2, lumi; all JSON numbers are rationals and
every field except t may be null). -/
structure HRec where
  t : ℚ
  energy : Option ℚ := none
  speed : Option ℚ := none
  ib1 : Option ℚ := none
  ib2 : Option ℚ := none
  lumi : Option ℚ := none
deriving DecidableEq

/-- One physical line of the history file: a line that parses to a record with
a numeric t, a line that parses to JSON without a numeric t, or a line on
which JSON.parse throws. -/
inductive HLine where
  | good (r : HRec)
  | noT (s : String)
  | malformed (s : String)
deriving DecidableEq

/-- The per-line parse of the trim step (src/unnamed/part_000 lines 110-112):
JSON.parse under try/catch, then the records without a numeric t are filtered
out; both failure modes collapse to none. -/
def parseLine : HLine → Option HRec
  | .good r => some r
  | _ => none

/-- Whether a line survives the per-line parse. -/
def isGoodLine (l : HLine) : Bool := (parseLine l).isSome

/-- getLastTimestamp, src/unnamed/part_000 lines 57-74: the t of the last line
when that line parses to a record with a numeric t, else null (the byte-tail
read recovers exactly the final line for the line lengths this pipeline
writes). -/
def lastT (lines : List HLine) : Option ℚ :=
  match lines.getLast? with
  | some (.good r) => some r.t
  | _ => none

/-- The exact-bucket append decision, src/unnamed/part_000 lines 96-103: the
candidate is appended iff the file has no readable last timestamp or its
bucket is strictly newer than the last one. -/
def appendExact (lines : List HLine) (cand : HRec) : List HLine :=
  match lastT lines with
  | none => lines ++ [.good cand]
  | some lt => if lt < cand.t then lines ++ [.good cand] else lines

/-- CUTOFF_SEC of part_000 line 17: 50 days in seconds. -/
def CUTOFF_SEC : ℚ := 50 * 24 * 3600

/-- MAX_POINTS of part_000 line 16: 50 days of 10-minute points. -/
def MAX_POINTS : ℕ := 50 * 24 * 6

/-- The trim step, src/unnamed/part_000 lines 106-128: parse every line
independently, drop the lines that fail to parse or lack a numeric t, keep the
records with t at least nowSec - CUTOFF_SEC, and when more than MAX_POINTS
remain keep only the trailing MAX_POINTS (slice from the tail).  The surviving
records are rewritten in their original relative order. -/
def trimHistory (lines : List HLine) (nowSec : ℚ) : List HRec :=
  let objs := lines.filterMap parseLine
  let kept := objs.filter (fun o => decide (nowSec - CUTOFF_SEC ≤ o.t))
  if MAX_POINTS < kept.length then kept.drop (kept.length - MAX_POINTS) else kept

/-- The number of stored records of a given bucket in the file. -/
def bucketCount (lines : List HLine) (b : ℚ) : ℕ :=
  lines.countP (fun l => match l with | .good r => decide (r.t = b) | _ => false)

/-! ### History store, tolerance mode (part_001) -/

/-- A record of the part_001 history (the serialized sample: t, energy, speed,
ib1, ib2, lumi, species).  The records this pipeline writes always carry a
numeric t. -/
structure TRec where
  t : ℚ
  energy : Option ℚ := none
  speed : Option ℚ := none
  ib1 : Option ℚ := none
  ib2 : Option ℚ := none
  lumi : Option ℚ := none
  species : String := "unknown"
deriving DecidableEq

/-- One physical line of the part_001 history file. -/
inductive TLine where
  | good (r : TRec)
  | noT (s : String)
  | malformed (s : String)
deriving DecidableEq

/-- The per-line parse used by loadAllLines combined with the numeric-t filter
of pruneHistory (src/unnamed/part_001 lines 147-153 and 166). -/
def parseTLine : TLine → Option TRec
  | .good r => some r
  | _ => none

/-- readLastLine, src/unnamed/part_001 lines 139-145: the parse of the final
line, null when it throws.  A final line that parses but lacks a numeric t is
modelled as none as well: in the source such an object defaults last.t to 0
via the ?? 0, which for epoch-scale sample timestamps also fails the 60-second
window and likewise lets the append proceed. -/
def readLastLine (lines : List TLine) : Option TRec :=
  match lines.getLast? with
  | some (.good r) => some r
  | _ => none

/-- The duplicate test of src/unnamed/part_001 lines 180-186: a last record
exists, its timestamp is within 60 seconds of the candidate, and energy, ib1,
ib2 and lumi are all strictly equal.  The species and speed fields are not
compared. -/
def isDup (last : Option TRec) (s : TRec) : Bool :=
  match last with
  | none => false
  | some l =>
      decide (|l.t - s.t| ≤ 60) &&
      decide (l.energy = s.energy) &&
      decide (l.ib1 = s.ib1) &&
      decide (l.ib2 = s.ib2) &&
      decide (l.lumi = s.lumi)

/-- The tolerance-mode append of src/unnamed/part_001 lines 179-188: append
unless the candidate is a duplicate of the last stored record. -/
def appendTolerant (lines : List TLine) (s : TRec) : List TLine :=
  if isDup (readLastLine lines) s then lines else lines ++ [.good s]

/-- pruneHistory, src/unnamed/part_001 lines 163-168: keep the parsed records
with a numeric t whose age now - t is at most maxAgeSec. -/
def pruneHistory (lines : List TLine) (nowSec maxAgeSec : ℚ) : List TRec :=
  (lines.filterMap parseTLine).filter (fun r => decide (nowSec - r.t ≤ maxAgeSec))

/-! ### Claims about the classifier -/

/-- C8: if the forced override is one of protons/ions, case-insensitively and
in singular or plural form, speciesFromSample returns that species regardless
of energy, intensities or last-known state; and in part_001 any non-empty
forced value short-circuits the textual guess. -/
theorem claim8_override_precedence :
    ∀ (raw : String) (energy ib1 ib2 : Option ℚ) (lastKnown : String)
      (guess : Option String),
      ((normForce raw = "proton" ∨ normForce raw = "protons") →
        speciesFromSample (normForce raw) energy ib1 ib2 lastKnown = "protons") ∧
      ((normForce raw = "ion" ∨ normForce raw = "ions") →
        speciesFromSample (normForce raw) energy ib1 ib2 lastKnown = "ions") ∧
      (resolveSpecies1 "protons" guess = "protons") ∧
      (resolveSpecies1 "ions" guess = "ions") := by
  intro raw energy ib1 ib2 lastKnown guess
  refine ⟨?_, ?_, ?_, ?_⟩
  · intro h
    unfold speciesFromSample
    rw [if_pos h]
  · intro h
    unfold speciesFromSample
    rw [if_neg, if_pos h]
    rcases h with h | h <;> rw [h] <;> simp
  · simp [resolveSpecies1]
  · simp [resolveSpecies1]

/-- C8 witness: a padded upper-case IONS override forces ions against a
proton-looking sample, and the part_001 resolution overrides a proton guess. -/
theorem claim8_witness :
    speciesFromSample (normForce "  IONS ") (some 6800) (some 110000000000000)
        none "protons" = "ions" ∧
    resolveSpecies1 "ions" (some "protons") = "ions" := by
  have h := claim8_override_precedence "  IONS " (some 6800)
    (some 110000000000000) none "protons" (some "protons")
  exact ⟨h.2.1 (by decide), h.2.2.2⟩

/-- C9: with no override, no energy, no intensities, a known (non-empty,
non-unknown) last-known species is returned unchanged by speciesFromSample. -/
theorem claim9_hysteresis (lastKnown : String)
    (h1 : lastKnown ≠ "") (h2 : lastKnown ≠ "unknown") :
    speciesFromSample "" none none none lastKnown = lastKnown := by
  simp [speciesFromSample, h1, h2]

/-- C9 witness: last-known protons is preserved on an all-null sample. -/
theorem claim9_witness :
    speciesFromSample "" none none none "protons" = "protons" :=
  claim9_hysteresis "protons" (by decide) (by decide)

/-- C10: in tolerance mode, a candidate within 60 seconds of the last stored
record whose energy, ib1, ib2 and lumi all coincide with it is treated as a
duplicate and not appended; the species field plays no role in the test, so
this holds even when the species labels differ. -/
theorem claim10_dup_ignores_species (lines : List TLine) (l s : TRec)
    (hlast : readLastLine lines = some l)
    (ht : |l.t - s.t| ≤ 60)
    (he : l.energy = s.energy) (h1 : l.ib1 = s.ib1)
    (h2 : l.ib2 = s.ib2) (hl : l.lumi = s.lumi) :
    appendTolerant lines s = lines := by
  unfold appendTolerant
  rw [hlast]
  simp [isDup, ht, he, h1, h2, hl]

/-- C10 witness: a candidate 30 seconds after the last record with identical
signal fields but a different species label is skipped. -/
theorem claim10_witness :
    (("protons" : String) ≠ "ions") ∧
    appendTolerant
        [TLine.good { t := 1000, energy := some 6800, species := "protons" }]
        { t := 1030, energy := some 6800, species := "ions" }
      = [TLine.good { t := 1000, energy := some 6800, species := "protons" }] := by
  refine ⟨by decide, ?_⟩
  exact claim10_dup_ignores_species _
    { t := 1000, energy := some 6800, species := "protons" }
    { t := 1030, energy := some 6800, species := "ions" }
    (by decide) (by show |(1000 : ℚ) - 1030| ≤ 60; norm_num)
    (by decide) (by decide) (by decide) (by decide)

/-- C4: a payload whose rendering carries an ion textual signature and no
proton signature classifies as ions in the pull-vistars heuristic regardless
of the energy and intensity inputs of the later energy rule (the textual rule
is tested first), and symmetrically for proton-only signatures; in part_001
the ion signature makes the guess ions and the resolution returns it whenever
no forced override is set, while any non-empty forced override wins. -/
theorem claim4_textual_priority :
    ∀ (payloadStr : String) (energy ib1 ib2 : Option ℚ) (forced : String)
      (g : Option String),
      (vistarsIsIon payloadStr = true → vistarsIsProt payloadStr = false →
        vistarsSpecies payloadStr energy ib1 ib2 = "ions") ∧
      (vistarsIsProt payloadStr = true → vistarsIsIon payloadStr = false →
        vistarsSpecies payloadStr energy ib1 ib2 = "protons") ∧
      (containsAnySub (jsLower payloadStr) ["ion", "pb", "lead", "a-ion", "heavy"] = true →
        resolveSpecies1 "" (guessSpeciesFromPayload payloadStr) = "ions") ∧
      (containsAnySub (jsLower payloadStr) ["ion", "pb", "lead", "a-ion", "heavy"] = false →
        containsAnySub (jsLower payloadStr) ["proton", "p-beam", "pbeam"] = true →
        resolveSpecies1 "" (guessSpeciesFromPayload payloadStr) = "protons") ∧
      (forced ≠ "" → resolveSpecies1 forced g = forced) := by
  intro payloadStr energy ib1 ib2 forced g
  refine ⟨?_, ?_, ?_, ?_, ?_⟩
  · intro hi hp
    simp [vistarsSpecies, hi, hp]
  · intro hp hi
    simp [vistarsSpecies, hi, hp]
  · intro hi
    simp [resolveSpecies1, guessSpeciesFromPayload, hi]
  · intro hi hp
    simp [resolveSpecies1, guessSpeciesFromPayload, hi, hp]
  · intro hf
    simp [resolveSpecies1, hf]

/-- C4 witness: an ion-signature payload classifies as ions in both heuristics
even with proton-grade energy supplied, and a proton-signature payload
classifies as protons. -/
theorem claim4_witness :
    vistarsSpecies "SB: Pb ions circulating" (some 6800) (some 30000000000000)
        none = "ions" ∧
    resolveSpecies1 "" (guessSpeciesFromPayload "SB: Pb ions circulating") = "ions" ∧
    vistarsSpecies "proton physics run" (some 450) (some 1) none = "protons" := by
  refine ⟨?_, ?_, ?_⟩
  · exact (claim4_textual_priority "SB: Pb ions circulating" (some 6800)
      (some 30000000000000) none "" none).1 (by decide) (by decide)
  · exact (claim4_textual_priority "SB: Pb ions circulating" (some 6800)
      (some 30000000000000) none "" none).2.2.1 (by decide)
  · exact (claim4_textual_priority "proton physics run" (some 450)
      (some 1) none "" none).2.1 (by decide) (by decide)

/-! ### Claims about sample construction -/

lemma pickBFS_nil (rx : String → Bool) : pickBFS rx [] = none := by
  rw [pickBFS]

lemma fetchNumJson_emptyObj (rx : String → Bool) :
    fetchNumJson (Json.jobj []) rx = none := by
  have h : pickBFS rx [Json.jobj []] = none := by
    rw [pickBFS]
    simp [scanEntries, entriesOf, childrenOf, pickBFS_nil]
  simp [fetchNumJson, pickByRegex, h, jsToNumber]

/-- C5: on the empty payload, with no prior classifier state ("unknown") and
no override (""), the built sample has all four signal fields null, speed
null, and species protons via the final default of speciesFromSample. -/
theorem claim5_empty_payload_defaults :
    ∀ (t : ℚ) (rE r1 r2 rL : String → Bool),
      (buildSample "" "unknown" t
          (fetchNumJson (Json.jobj []) rE) (fetchNumJson (Json.jobj []) r1)
          (fetchNumJson (Json.jobj []) r2) (fetchNumJson (Json.jobj []) rL)).energy
        = none ∧
      (buildSample "" "unknown" t
          (fetchNumJson (Json.jobj []) rE) (fetchNumJson (Json.jobj []) r1)
          (fetchNumJson (Json.jobj []) r2) (fetchNumJson (Json.jobj []) rL)).speed
        = none ∧
      (buildSample "" "unknown" t
          (fetchNumJson (Json.jobj []) rE) (fetchNumJson (Json.jobj []) r1)
          (fetchNumJson (Json.jobj []) r2) (fetchNumJson (Json.jobj []) rL)).ib1
        = none ∧
      (buildSample "" "unknown" t
          (fetchNumJson (Json.jobj []) rE) (fetchNumJson (Json.jobj []) r1)
          (fetchNumJson (Json.jobj []) r2) (fetchNumJson (Json.jobj []) rL)).ib2
        = none ∧
      (buildSample "" "unknown" t
          (fetchNumJson (Json.jobj []) rE) (fetchNumJson (Json.jobj []) r1)
          (fetchNumJson (Json.jobj []) r2) (fetchNumJson (Json.jobj []) rL)).lumi
        = none ∧
      (buildSample "" "unknown" t
          (fetchNumJson (Json.jobj []) rE) (fetchNumJson (Json.jobj []) r1)
          (fetchNumJson (Json.jobj []) r2) (fetchNumJson (Json.jobj []) rL)).species
        = "protons" := by
  intro t rE r1 r2 rL
  simp only [buildSample, fetchNumJson_emptyObj, Option.map_none']
  refine ⟨trivial, trivial, trivial, trivial, trivial, ?_⟩
  decide

/-- C7: in every sample built by the pull.mjs cycle, speed is null iff energy
is null, and when energy is present the speed is exactly the derived beta. -/
theorem claim7_speed_energy_coupling :
    ∀ (rawForce lastKnown : String) (t : ℚ) (e ib1 ib2 lumi : Option ℚ),
      ((buildSample rawForce lastKnown t e ib1 ib2 lumi).speed = none ↔
        (buildSample rawForce lastKnown t e ib1 ib2 lumi).energy = none) ∧
      (∀ q : ℚ, (buildSample rawForce lastKnown t e ib1 ib2 lumi).energy = some q →
        (buildSample rawForce lastKnown t e ib1 ib2 lumi).speed
          = some (betaFromProtonGeV q)) := by
  intro rawForce lastKnown t e ib1 ib2 lumi
  cases e with
  | none => simp [buildSample]
  | some q => simp [buildSample]

/-- C7 witness: with energy 6800 GeV present, the speed field is the derived
beta of 6800. -/
theorem claim7_witness :
    (buildSample "" "unknown" 100 (some 6800) none none none).speed
      = some (betaFromProtonGeV 6800) :=
  (claim7_speed_energy_coupling "" "unknown" 100 (some 6800) none none none).2
    6800 rfl

/-! ### Claims about the history store -/

lemma filterMap_parse_filter_good (lines : List HLine) :
    (lines.filter isGoodLine).filterMap parseLine = lines.filterMap parseLine := by
  induction lines with
  | nil => rfl
  | cons a as ih =>
      cases a <;>
        simp [isGoodLine, parseLine, List.filter_cons, List.filterMap_cons, ih]

lemma length_filterMap_parse (lines : List HLine) :
    (lines.filterMap parseLine).length = lines.countP isGoodLine := by
  induction lines with
  | nil => rfl
  | cons a as ih =>
      cases a <;>
        simp [isGoodLine, parseLine, List.filterMap_cons, List.countP_cons, ih]

/-- C2: the trim step parses lines independently and silently discards the
unparseable ones and those without a numeric timestamp: its result on any
file equals its result on the file restricted to the well-formed lines, and
with N well-formed lines at most N records are retained.  The step is a total
function of the file contents, so malformed lines cannot make it fail. -/
theorem claim2_trim_corruption :
    ∀ (lines : List HLine) (nowSec : ℚ),
      trimHistory lines nowSec = trimHistory (lines.filter isGoodLine) nowSec ∧
      (trimHistory lines nowSec).length ≤ lines.countP isGoodLine := by
  intro lines nowSec
  constructor
  · unfold trimHistory
    rw [filterMap_parse_filter_good]
  · unfold trimHistory
    have hk : ((lines.filterMap parseLine).filter
        (fun o => decide (nowSec - CUTOFF_SEC ≤ o.t))).length
        ≤ lines.countP isGoodLine := by
      calc ((lines.filterMap parseLine).filter
            (fun o => decide (nowSec - CUTOFF_SEC ≤ o.t))).length
          ≤ (lines.filterMap parseLine).length := List.length_filter_le _ _
        _ = lines.countP isGoodLine := length_filterMap_parse lines
    by_cases h : MAX_POINTS <
        ((lines.filterMap parseLine).filter
          (fun o => decide (nowSec - CUTOFF_SEC ≤ o.t))).length
    · rw [if_pos h]
      rw [List.length_drop]
      omega
    · rw [if_neg h]
      exact hk

lemma lastT_concat_good (L : List HLine) (r : HRec) :
    lastT (L ++ [HLine.good r]) = some r.t := by
  simp [lastT, List.getLast?_concat]

lemma appendExact_of_lastT_none (L : List HLine) (c : HRec)
    (h : lastT L = none) : appendExact L c = L ++ [HLine.good c] := by
  unfold appendExact
  rw [h]

lemma appendExact_of_lt (L : List HLine) (c : HRec) (lt : ℚ)
    (h : lastT L = some lt) (hlt : lt < c.t) :
    appendExact L c = L ++ [HLine.good c] := by
  unfold appendExact
  rw [h]
  show (if lt < c.t then L ++ [HLine.good c] else L) = L ++ [HLine.good c]
  exact if_pos hlt

lemma appendExact_of_not_lt (L : List HLine) (c : HRec) (lt : ℚ)
    (h : lastT L = some lt) (hge : ¬ lt < c.t) : appendExact L c = L := by
  unfold appendExact
  rw [h]
  show (if lt < c.t then L ++ [HLine.good c] else L) = L
  exact if_neg hge

lemma foldl_appendExact_fresh (recs : List HRec) :
    ∀ L : List HLine, recs.Pairwise (fun a b => a.t < b.t) →
      (∀ lt, lastT L = some lt → ∀ r ∈ recs, lt < r.t) →
      List.foldl appendExact L recs = L ++ recs.map HLine.good := by
  induction recs with
  | nil => intro L _ _; simp
  | cons r rs ih =>
      intro L hp hf
      have hstep : appendExact L r = L ++ [HLine.good r] := by
        cases hL : lastT L with
        | none => exact appendExact_of_lastT_none _ _ hL
        | some lt => exact appendExact_of_lt _ _ _ hL (hf lt hL r (by simp))
      have hfresh2 : ∀ lt, lastT (L ++ [HLine.good r]) = some lt →
          ∀ r2 ∈ rs, lt < r2.t := by
        intro lt hlt r2 hr2
        rw [lastT_concat_good] at hlt
        injection hlt with hh
        rw [← hh]
        exact (List.pairwise_cons.mp hp).1 r2 hr2
      rw [List.foldl_cons, hstep,
        ih (L ++ [HLine.good r]) (List.pairwise_cons.mp hp).2 hfresh2]
      simp

lemma bucketCount_map_good_le_one (recs : List HRec)
    (hp : recs.Pairwise (fun a b => a.t < b.t)) (b : ℚ) :
    bucketCount (recs.map HLine.good) b ≤ 1 := by
  induction recs with
  | nil => simp [bucketCount]
  | cons r rs ih =>
      have h1 := (List.pairwise_cons.mp hp).1
      have h2 := (List.pairwise_cons.mp hp).2
      by_cases hb : r.t = b
      · have hz : bucketCount (rs.map HLine.good) b = 0 := by
          unfold bucketCount
          rw [List.countP_eq_zero]
          intro l hl
          obtain ⟨r2, hr2, rfl⟩ := List.mem_map.mp hl
          simp only [decide_eq_true_eq]
          exact ne_of_gt (hb ▸ h1 r2 hr2)
        unfold bucketCount at hz ⊢
        simp only [List.map_cons, List.countP_cons, hz, hb]
        simp
      · unfold bucketCount at ih ⊢
        simp only [List.map_cons, List.countP_cons]
        have : (decide (r.t = b) : Bool) = false := by simp [hb]
        simp only [this]
        simpa using ih h2

lemma bucketCount_append (L1 L2 : List HLine) (b : ℚ) :
    bucketCount (L1 ++ L2) b = bucketCount L1 b + bucketCount L2 b := by
  unfold bucketCount
  exact List.countP_append _ _ _

/-- C1: under the exact-bucket append of part_000, a second candidate with
the same bucket as the first is always a no-op, so appending two samples
with identical buckets adds at most one stored record for that bucket; and
appending a batch of samples with strictly increasing buckets (all newer than
the stored last timestamp) appends each of them exactly once, one stored
record per bucket. -/
theorem claim1_exact_bucket_dedup (L : List HLine) (s1 s2 : HRec)
    (recs : List HRec) (h12 : s1.t = s2.t)
    (hinc : recs.Pairwise (fun a b => a.t < b.t))
    (hfresh : ∀ lt, lastT L = some lt → ∀ r ∈ recs, lt < r.t) :
    appendExact (appendExact L s1) s2 = appendExact L s1 ∧
    bucketCount (appendExact (appendExact L s1) s2) s1.t
      ≤ bucketCount L s1.t + 1 ∧
    List.foldl appendExact L recs = L ++ recs.map HLine.good ∧
    ∀ b : ℚ, bucketCount (recs.map HLine.good) b ≤ 1 := by
  have hno : appendExact (appendExact L s1) s2 = appendExact L s1 := by
    cases hL : lastT L with
    | none =>
        rw [appendExact_of_lastT_none L s1 hL]
        exact appendExact_of_not_lt _ _ _ (lastT_concat_good L s1)
          (by rw [← h12]; exact lt_irrefl _)
    | some lt =>
        by_cases hlt : lt < s1.t
        · rw [appendExact_of_lt L s1 lt hL hlt]
          exact appendExact_of_not_lt _ _ _ (lastT_concat_good L s1)
            (by rw [← h12]; exact lt_irrefl _)
        · rw [appendExact_of_not_lt L s1 lt hL hlt]
          exact appendExact_of_not_lt L s2 lt hL (by rw [← h12]; exact hlt)
  refine ⟨hno, ?_, foldl_appendExact_fresh recs L hinc hfresh,
    fun b => bucketCount_map_good_le_one recs hinc b⟩
  rw [hno]
  cases hL : lastT L with
  | none =>
      rw [appendExact_of_lastT_none L s1 hL, bucketCount_append]
      have : bucketCount [HLine.good s1] s1.t ≤ 1 := by
        unfold bucketCount
        simp [List.countP_cons]
      omega
  | some lt =>
      by_cases hlt : lt < s1.t
      · rw [appendExact_of_lt L s1 lt hL hlt, bucketCount_append]
        have : bucketCount [HLine.good s1] s1.t ≤ 1 := by
          unfold bucketCount
          simp [List.countP_cons]
        omega
      · rw [appendExact_of_not_lt L s1 lt hL hlt]
        omega

/-- C1 witness: on a log ending at bucket 600, two candidates at bucket 1200
(with different payloads) yield a single appended record, and a batch at
buckets 1200 and 1800 is appended once each. -/
theorem claim1_witness :
    appendExact (appendExact [HLine.good { t := 600 }]
        { t := 1200, energy := some 6800 }) { t := 1200, energy := some 6799 }
      = appendExact [HLine.good { t := 600 }] { t := 1200, energy := some 6800 } ∧
    List.foldl appendExact [HLine.good { t := 600 }]
        [{ t := 1200 }, { t := 1800 }]
      = [HLine.good { t := 600 }]
          ++ ([{ t := 1200 }, { t := 1800 }] : List HRec).map HLine.good := by
  have h := claim1_exact_bucket_dedup [HLine.good { t := 600 }]
    { t := 1200, energy := some 6800 } { t := 1200, energy := some 6799 }
    [{ t := 1200 }, { t := 1800 }] (by decide)
    (by simp [List.pairwise_cons]; norm_num) ?hf
  · exact ⟨h.1, h.2.2.1⟩
  · intro lt hlt r hr
    have h1 : lastT [HLine.good { t := (600 : ℚ) }] = some 600 := rfl
    rw [h1] at hlt
    injection hlt with hh
    rw [← hh]
    rcases List.mem_cons.mp hr with h2 | h2
    · rw [h2]; norm_num
    · rcases List.mem_cons.mp h2 with h3 | h3
      · rw [h3]; norm_num
      · exact absurd h3 (List.not_mem_nil r)

/-- C3: after the part_000 trim, every stored record is within the retention
window, the stored count never exceeds MAX_POINTS, the surviving records keep
their original relative order (the result is a sublist of the parsed input),
and on a log sorted by timestamp the cap drops a leading block of oldest records:
the result is the tail of the in-window records and every dropped record is
no newer than every surviving one.  The part_001 pruneHistory enforces the
same retention window (it has no point cap). -/
theorem claim3_trim_retention (lines : List HLine) (nowSec : ℚ)
    (hs : (lines.filterMap parseLine).Pairwise (fun a b => a.t ≤ b.t)) :
    (∀ r ∈ trimHistory lines nowSec, nowSec - CUTOFF_SEC ≤ r.t) ∧
    (trimHistory lines nowSec).length ≤ MAX_POINTS ∧
    (trimHistory lines nowSec).Sublist (lines.filterMap parseLine) ∧
    (∃ dropped : List HRec,
      dropped ++ trimHistory lines nowSec
        = (lines.filterMap parseLine).filter
            (fun o => decide (nowSec - CUTOFF_SEC ≤ o.t)) ∧
      ∀ a ∈ dropped, ∀ b ∈ trimHistory lines nowSec, a.t ≤ b.t) ∧
    (∀ (tlines : List TLine) (maxAge : ℚ),
      ∀ r ∈ pruneHistory tlines nowSec maxAge, nowSec - maxAge ≤ r.t) := by
  have hkept : ∀ r ∈ (lines.filterMap parseLine).filter
      (fun o => decide (nowSec - CUTOFF_SEC ≤ o.t)), nowSec - CUTOFF_SEC ≤ r.t := by
    intro r hr
    have := (List.mem_filter.mp hr).2
    exact of_decide_eq_true this
  have hkpw : ((lines.filterMap parseLine).filter
      (fun o => decide (nowSec - CUTOFF_SEC ≤ o.t))).Pairwise
      (fun a b => a.t ≤ b.t) := hs.sublist (List.filter_sublist _)
  have hprune : ∀ (tlines : List TLine) (maxAge : ℚ),
      ∀ r ∈ pruneHistory tlines nowSec maxAge, nowSec - maxAge ≤ r.t := by
    intro tlines maxAge r hr
    have := (List.mem_filter.mp hr).2
    have h2 := of_decide_eq_true this
    linarith
  unfold trimHistory
  by_cases h : MAX_POINTS < ((lines.filterMap parseLine).filter
      (fun o => decide (nowSec - CUTOFF_SEC ≤ o.t))).length
  · rw [if_pos h]
    set kept := (lines.filterMap parseLine).filter
      (fun o => decide (nowSec - CUTOFF_SEC ≤ o.t)) with hkdef
    refine ⟨?_, ?_, ?_, ?_, hprune⟩
    · intro r hr
      exact hkept r ((List.drop_sublist _ _).mem hr)
    · rw [List.length_drop]
      omega
    · exact ((List.drop_sublist _ _).trans (List.filter_sublist _))
    · refine ⟨kept.take (kept.length - MAX_POINTS), List.take_append_drop _ _, ?_⟩
      have hsplit := hkpw
      rw [← List.take_append_drop (kept.length - MAX_POINTS) kept] at hsplit
      exact (List.pairwise_append.mp hsplit).2.2
  · rw [if_neg h]
    refine ⟨hkept, by omega, List.filter_sublist _, ⟨[], by simp, ?_⟩, hprune⟩
    intro a ha
    exact absurd ha (List.not_mem_nil a)

/-- C3 witness: on a sorted log with one expired record, one garbled line and
one fresh record, trimming retains within the window and under the cap. -/
theorem claim3_witness :
    (∀ r ∈ trimHistory
        [HLine.good { t := 50 }, HLine.malformed "garbage", HLine.good { t := 4320090 }]
        4320100, (4320100 : ℚ) - CUTOFF_SEC ≤ r.t) ∧
    (trimHistory
        [HLine.good { t := 50 }, HLine.malformed "garbage", HLine.good { t := 4320090 }]
        4320100).length ≤ MAX_POINTS := by
  have h := claim3_trim_retention
    [HLine.good { t := 50 }, HLine.malformed "garbage", HLine.good { t := 4320090 }]
    4320100
    (by simp [parseLine, List.filterMap_cons, List.pairwise_cons]; norm_num)
  exact ⟨h.1, h.2.1⟩

/-! ### Claims about beta derivation -/

lemma m0_pos : 0 < m0 := by norm_num [m0]

lemma m0_ne : m0 ≠ 0 := ne_of_gt m0_pos

lemma betaFromGeV_fin_nonpos (q : ℚ) (hq : ¬ 0 < q) :
    betaFromGeV (JsRat.fin q) = JsReal.rfin 0 := by
  have hc : (jsTruthy (JsRat.fin q) && jsGt (JsRat.fin q) (JsRat.fin 0)) = false := by
    by_cases h0 : q = 0
    · simp [jsTruthy, h0]
    · simp [jsTruthy, jsGt, h0, hq]
  simp [betaFromGeV, hc, jsLe]

lemma betaFromGeV_fin_small (q : ℚ) (hq : 0 < q) (hle : q / m0 ≤ 1) :
    betaFromGeV (JsRat.fin q) = JsReal.rfin 0 := by
  have hc : (jsTruthy (JsRat.fin q) && jsGt (JsRat.fin q) (JsRat.fin 0)) = true := by
    simp [jsTruthy, jsGt, hq, ne_of_gt hq]
  have hdiv : jsDiv (JsRat.fin q) (JsRat.fin m0) = JsRat.fin (q / m0) := by
    simp [jsDiv, m0_ne]
  simp [betaFromGeV, hc, hdiv, jsLe, hle]

lemma betaFromGeV_fin_big (q : ℚ) (hq : 0 < q) (hgt : ¬ q / m0 ≤ 1) :
    betaFromGeV (JsRat.fin q)
      = JsReal.rfin (Real.sqrt
          ((max 0 (min 1 (1 - 1 / (q / m0 * (q / m0)))) : ℚ) : ℝ)) := by
  have hc : (jsTruthy (JsRat.fin q) && jsGt (JsRat.fin q) (JsRat.fin 0)) = true := by
    simp [jsTruthy, jsGt, hq, ne_of_gt hq]
  have hdiv : jsDiv (JsRat.fin q) (JsRat.fin m0) = JsRat.fin (q / m0) := by
    simp [jsDiv, m0_ne]
  have hg1 : (1 : ℚ) < q / m0 := not_le.mp hgt
  have hgne : q / m0 ≠ 0 := ne_of_gt (lt_trans one_pos hg1)
  have hle' : jsLe (JsRat.fin (q / m0)) (JsRat.fin 1) = false := by
    simp [jsLe, hgt]
  have hmul : jsMul (JsRat.fin (q / m0)) (JsRat.fin (q / m0))
      = JsRat.fin (q / m0 * (q / m0)) := rfl
  have hdiv2 : jsDiv (JsRat.fin 1) (JsRat.fin (q / m0 * (q / m0)))
      = JsRat.fin (1 / (q / m0 * (q / m0))) := by
    simp [jsDiv, mul_ne_zero hgne hgne]
  have hsub : jsSub (JsRat.fin 1) (JsRat.fin (1 / (q / m0 * (q / m0))))
      = JsRat.fin (1 - 1 / (q / m0 * (q / m0))) := rfl
  have hmin : jsMin (JsRat.fin 1) (JsRat.fin (1 - 1 / (q / m0 * (q / m0))))
      = JsRat.fin (min 1 (1 - 1 / (q / m0 * (q / m0)))) := rfl
  have hmax : jsMax (JsRat.fin 0) (JsRat.fin (min 1 (1 - 1 / (q / m0 * (q / m0)))))
      = JsRat.fin (max 0 (min 1 (1 - 1 / (q / m0 * (q / m0))))) := rfl
  have hsq : jsSqrt (JsRat.fin (max 0 (min 1 (1 - 1 / (q / m0 * (q / m0))))))
      = JsReal.rfin (Real.sqrt
          ((max 0 (min 1 (1 - 1 / (q / m0 * (q / m0)))) : ℚ) : ℝ)) := by
    show (if (max 0 (min 1 (1 - 1 / (q / m0 * (q / m0)))) : ℚ) < 0 then JsReal.rnan
        else JsReal.rfin (Real.sqrt
          ((max 0 (min 1 (1 - 1 / (q / m0 * (q / m0)))) : ℚ) : ℝ))) = _
    rw [if_neg (not_lt.mpr (le_max_left 0 _))]
  simp only [betaFromGeV, hc, if_true, hdiv, hle', Bool.false_eq_true, if_false,
    hmul, hdiv2, hsub, hmin, hmax, hsq]

lemma betaFromGeV_fin_range (q : ℚ) :
    ∃ r : ℝ, betaFromGeV (JsRat.fin q) = JsReal.rfin r ∧ 0 ≤ r ∧ r ≤ 1 := by
  by_cases hq : 0 < q
  · by_cases hle : q / m0 ≤ 1
    · exact ⟨0, betaFromGeV_fin_small q hq hle, le_refl 0, zero_le_one⟩
    · refine ⟨_, betaFromGeV_fin_big q hq hle, Real.sqrt_nonneg _, ?_⟩
      have hc : (max 0 (min 1 (1 - 1 / (q / m0 * (q / m0)))) : ℚ) ≤ 1 :=
        max_le zero_le_one (min_le_left _ _)
      exact Real.sqrt_le_one.mpr (by exact_mod_cast hc)
  · exact ⟨0, betaFromGeV_fin_nonpos q hq, le_refl 0, zero_le_one⟩

lemma betaFromProtonGeV_range (q : ℚ) :
    0 ≤ betaFromProtonGeV q ∧ betaFromProtonGeV q ≤ 1 := by
  unfold betaFromProtonGeV
  by_cases hq : 0 < q
  · rw [if_neg (not_not_intro hq)]
    refine ⟨Real.sqrt_nonneg _, ?_⟩
    have hc : (max 0 (min 1 (1 - 1 / (q / m0 * (q / m0)))) : ℚ) ≤ 1 :=
      max_le zero_le_one (min_le_left _ _)
    exact Real.sqrt_le_one.mpr (by exact_mod_cast hc)
  · rw [if_pos hq]
    norm_num

/-- C6 counterexample: the claim reads that betaFromEnergy returns 0 for every
non-positive or non-finite input, but on the non-finite input +Infinity the
code computes gamma = Infinity, b2 = 1 - 1/Infinity = 1, and returns
sqrt(1) = 1, not 0. -/
theorem claim6_counterexample :
    betaFromGeV JsRat.inf = JsReal.rfin 1 ∧
    betaFromGeV JsRat.inf ≠ JsReal.rfin 0 := by
  have hdiv : jsDiv JsRat.inf (JsRat.fin m0) = JsRat.inf := by
    show (if m0 < 0 then JsRat.ninf else JsRat.inf) = JsRat.inf
    exact if_neg (not_lt.mpr m0_pos.le)
  have hsub : jsSub (JsRat.fin 1) (JsRat.fin 0) = JsRat.fin 1 := by
    show JsRat.fin (1 - 0) = JsRat.fin 1
    norm_num
  have hmin : jsMin (JsRat.fin 1) (JsRat.fin 1) = JsRat.fin 1 := by
    show JsRat.fin (min 1 1) = JsRat.fin 1
    norm_num
  have hmax : jsMax (JsRat.fin 0) (JsRat.fin 1) = JsRat.fin 1 := by
    show JsRat.fin (max 0 1) = JsRat.fin 1
    norm_num
  have hsq : jsSqrt (JsRat.fin 1) = JsReal.rfin 1 := by
    show (if (1 : ℚ) < 0 then JsReal.rnan
        else JsReal.rfin (Real.sqrt ((1 : ℚ) : ℝ))) = JsReal.rfin 1
    rw [if_neg (by norm_num)]
    norm_num
  have h : betaFromGeV JsRat.inf = JsReal.rfin 1 := by
    simp only [betaFromGeV, jsTruthy, jsGt, Bool.and_self, if_true, hdiv]
    have hle : jsLe JsRat.inf (JsRat.fin 1) = false := rfl
    have hmul : jsMul JsRat.inf JsRat.inf = JsRat.inf := rfl
    have hdiv2 : jsDiv (JsRat.fin 1) JsRat.inf = JsRat.fin 0 := rfl
    simp only [hle, Bool.false_eq_true, if_false, hmul, hdiv2, hsub, hmin, hmax, hsq]
  refine ⟨h, ?_⟩
  rw [h]
  intro hcontra
  have h10 : (1 : ℝ) = 0 := by injection hcontra
  exact one_ne_zero h10

/-- C6 amended: for every finite E the result is a finite value in [0, 1];
beta of 0 and of m0 is 0; the function is total and returns 0 for every
non-positive or NaN input, while +Infinity yields 1 (claim6_counterexample);
the pull.mjs variant betaFromProtonGeV obeys the same range and boundary
values on its finite domain. -/
theorem claim6_beta_range_amended :
    (∀ q : ℚ, ∃ r : ℝ, betaFromGeV (JsRat.fin q) = JsReal.rfin r ∧
      0 ≤ r ∧ r ≤ 1) ∧
    betaFromGeV (JsRat.fin 0) = JsReal.rfin 0 ∧
    betaFromGeV (JsRat.fin m0) = JsReal.rfin 0 ∧
    betaFromGeV JsRat.nan = JsReal.rfin 0 ∧
    betaFromGeV JsRat.ninf = JsReal.rfin 0 ∧
    (∀ q : ℚ, q ≤ 0 → betaFromGeV (JsRat.fin q) = JsReal.rfin 0) ∧
    (∀ q : ℚ, 0 ≤ betaFromProtonGeV q ∧ betaFromProtonGeV q ≤ 1) ∧
    betaFromProtonGeV 0 = 0 ∧
    betaFromProtonGeV m0 = 0 := by
  refine ⟨betaFromGeV_fin_range, ?_, ?_, ?_, ?_, ?_, betaFromProtonGeV_range, ?_, ?_⟩
  · exact betaFromGeV_fin_nonpos 0 (lt_irrefl 0)
  · exact betaFromGeV_fin_small m0 m0_pos (by rw [div_self m0_ne])
  · simp [betaFromGeV, jsTruthy, jsLe]
  · simp [betaFromGeV, jsTruthy, jsGt, jsLe]
  · intro q hq
    exact betaFromGeV_fin_nonpos q (not_lt.mpr hq)
  · simp [betaFromProtonGeV]
  · unfold betaFromProtonGeV
    rw [if_neg (not_not_intro m0_pos), div_self m0_ne]
    norm_num

/-- C6 witness: the amended theorem at the concrete non-positive input -5 and
at the NaN input. -/
theorem claim6_witness :
    betaFromGeV (JsRat.fin (-5)) = JsReal.rfin 0 ∧
    betaFromGeV JsRat.nan = JsReal.rfin 0 :=
  ⟨claim6_beta_range_amended.2.2.2.2.2.1 (-5) (by norm_num),
    claim6_beta_range_amended.2.2.2.1⟩
